import Mathlib

/-
  Verification of the LinguAlive audio-processing pipeline
  (src/linguServer/api/utils/audio_processing.py) against its
  natural-language specification.

  Sample values are embedded as exact rationals (ℚ), sample rates as ℕ.
  External library calls (ffmpeg, librosa.load, librosa.effects.split,
  librosa.feature.rms, noisereduce.reduce_noise, librosa.resample,
  soundfile.write) are modelled as oracle functions carried in an `Env`
  record: the repository treats them as black boxes, so theorems quantify
  over their behaviour unless a claim pins a concrete instance.
  Filesystem effects are modelled by an explicit state `St`.
-/

namespace LinguAlive

/-- A mono audio buffer: the sequence of samples (numpy float array). -/
abbrev Buf := List ℚ

/-- Decidable equality for `Except`, so that concrete pipeline results can be
checked by `decide`. -/
instance exceptDecEq {ε α : Type} [DecidableEq ε] [DecidableEq α] :
    DecidableEq (Except ε α) := fun x y =>
  match x, y with
  | .ok a, .ok b =>
      if h : a = b then .isTrue (by rw [h]) else .isFalse (by intro he; cases he; exact h rfl)
  | .error a, .error b =>
      if h : a = b then .isTrue (by rw [h]) else .isFalse (by intro he; cases he; exact h rfl)
  | .ok _, .error _ => .isFalse (by intro he; cases he)
  | .error _, .ok _ => .isFalse (by intro he; cases he)

/-- Python `int(q)` on a rational: truncation toward zero. -/
def truncQ (q : ℚ) : ℤ :=
  if 0 ≤ q then ⌊q⌋ else -⌊-q⌋

/-- Python `round(q)` with no digits argument: round half to even, as an integer. -/
def pyRound (q : ℚ) : ℤ :=
  let f := ⌊q⌋
  let r := q - f
  if r < 1/2 then f
  else if 1/2 < r then f + 1
  else if f % 2 = 0 then f else f + 1

/-- Clamp one Python slice index to the bounds of a list of length `len`:
negative indices count from the end (clamped at 0), large indices clamp at `len`. -/
def clampIdx (len : ℕ) (i : ℤ) : ℕ :=
  if i < 0 then ((len : ℤ) + i).toNat else min i.toNat len

/-- Python slice `y[a:b]` (step 1) over an embedded buffer. -/
def pySlice (y : Buf) (a b : ℤ) : Buf :=
  (y.take (clampIdx y.length b)).drop (clampIdx y.length a)

/-- Helper for `argmin`: scan the tail remembering the best value and its index. -/
def argminAux (best : ℚ) (bestIdx : ℕ) (cur : ℕ) : List ℚ → ℕ
  | [] => bestIdx
  | x :: xs => if x < best then argminAux x cur (cur + 1) xs
               else argminAux best bestIdx (cur + 1) xs

/-- numpy `argmin`: index of the first minimal element (0 on the empty list). -/
def argmin : List ℚ → ℕ
  | [] => 0
  | x :: xs => argminAux x 0 1 xs

/-- Lowercase a string, as Python `str.lower` on ASCII. -/
def strLower (s : String) : String := String.mk (s.toList.map Char.toLower)

/-- Split a file basename into (stem, extension) following CPython
`posixpath.splitext`: split at the last dot, unless every character before
that dot is itself a dot (then there is no extension). -/
def splitName (name : List Char) : List Char × List Char :=
  let afterDot := (name.reverse.takeWhile (fun c => c ≠ '.')).reverse
  if afterDot.length = name.length then (name, [])
  else
    let k := name.length - afterDot.length - 1
    let pre := name.take k
    if pre.any (fun c => c ≠ '.') then (pre, name.drop k) else (name, [])

/-- Python `os.path.splitext`: split off the extension of the final path
component, keeping the directory part attached to the stem. -/
def splitext (p : String) : String × String :=
  let l := p.toList
  let nameLen := (l.reverse.takeWhile (fun c => c ≠ '/')).length
  let dirLen := l.length - nameLen
  let se := splitName (l.drop dirLen)
  (String.mk (l.take dirLen ++ se.1), String.mk se.2)

/-- Extensions the pipeline converts through ffmpeg
(`['.webm', '.mp3', '.m4a', '.ogg', '.flac']` in `process_audio`). -/
def audioExts : List String := [".webm", ".mp3", ".m4a", ".ogg", ".flac"]

/-- The `needs_conversion` test of `process_audio`:
lowercased extension of the input path is one of `audioExts`. -/
def needsConversion (input_path : String) : Bool :=
  audioExts.contains (strLower (splitext input_path).2)

/-- The temporary output path chosen by `convert_to_wav` when no explicit
output path is given: input stem plus `_converted.wav`. -/
def tempConvertedPath (input_path : String) : String :=
  (splitext input_path).1 ++ "_converted.wav"

/-- Sidecar metadata path of `process_audio`: output stem plus `_metadata.json`. -/
def metaPath (output_path : String) : String :=
  (splitext output_path).1 ++ "_metadata.json"

/-- Energy-based VAD `vad_with_librosa`: filter the candidate sample-index
intervals produced by `librosa.effects.split` (the `split` oracle, given the
buffer and `top_db`), keeping those whose duration in seconds is at least
`min_segment_duration`, and convert the kept endpoints to seconds. -/
def vad_with_librosa (split : Buf → ℕ → List (ℕ × ℕ)) (y : Buf) (sr : ℕ)
    (top_db : ℕ) (min_segment_duration : ℚ) : List (ℚ × ℚ) :=
  (split y top_db).filterMap fun p =>
    if min_segment_duration ≤ ((p.2 : ℚ) - (p.1 : ℚ)) / (sr : ℚ) then
      some ((p.1 : ℚ) / (sr : ℚ), (p.2 : ℚ) / (sr : ℚ))
    else none

/-- `concatenate_segments`: map each segment in seconds back to sample
indices with `int(round(start_s * sr))`, slice the original buffer, and
concatenate the slices; the empty segment list yields the empty buffer. -/
def concatenate_segments (y : Buf) (sr : ℕ) (segments : List (ℚ × ℚ)) : Buf :=
  if segments.isEmpty then []
  else
    let chunks := segments.map fun s =>
      pySlice y (pyRound (s.1 * (sr : ℚ))) (pyRound (s.2 * (sr : ℚ)))
    if chunks.isEmpty then [] else chunks.flatten

/-- The noise-profile estimator `get_noise_profile`, with
`librosa.feature.rms(y=y)[0]` as the `rms` oracle: take the first
`int(duration * sr)` samples when the buffer is long enough and that count is
positive; otherwise locate the lowest-RMS analysis frame and slice a window of
the target length around it, clipped to the buffer; an empty energy series
returns the buffer unchanged. -/
def get_noise_profile (rms : Buf → List ℚ) (y : Buf) (sr : ℕ) (duration : ℚ) : Buf :=
  let n_samples : ℤ := truncQ (duration * (sr : ℚ))
  if n_samples ≤ (y.length : ℤ) ∧ 0 < n_samples then
    pySlice y 0 n_samples
  else
    let energy := rms y
    let hop_length : ℤ := 512
    if energy.length = 0 then y
    else
      let min_frame : ℤ := (argmin energy : ℕ)
      let start := max 0 (min_frame * hop_length - n_samples.fdiv 2)
      let stop := min (y.length : ℤ) (start + max n_samples 1)
      pySlice y start stop

/-- numpy `np.max(np.abs(y))`, with 0 as the fold seed (used on nonempty
buffers only, where it agrees with the true maximum since samples have
nonnegative absolute value). -/
def peakAbs (y : Buf) : ℚ := (y.map fun a => |a|).foldr max 0

/-- Peak normalization `normalize_peak`: empty buffers and all-zero buffers
are returned unchanged; otherwise divide by the peak and multiply by
`target_peak`. -/
def normalize_peak (y : Buf) (target_peak : ℚ) : Buf :=
  if y.length = 0 then y
  else
    let peak := peakAbs y
    if peak = 0 then y
    else (y.map fun a => a / peak).map fun a => a * target_peak

/-- The denoise stage of `process_audio` (lines 142-147): feed the stitched
speech-only buffer when nonempty, otherwise the full original buffer, to
`noisereduce.reduce_noise` (the `rn` oracle, `none` modelling a raised
exception); a failure is absorbed and yields the input unchanged. -/
def denoiseInput (y_vad y : Buf) : Buf :=
  if y_vad.length > 0 then y_vad else y

/-- Result of the denoise stage: the oracle output on success, the
pre-denoise input on failure. -/
def denoise_stage (rn : Buf → Buf → ℕ → Option Buf) (y_vad y noise : Buf) (sr : ℕ) : Buf :=
  match rn (denoiseInput y_vad y) noise sr with
  | some d => d
  | none => denoiseInput y_vad y

/-- Outcome of one ffmpeg subprocess invocation: clean exit (output file
created), `CalledProcessError` with captured stderr, or `FileNotFoundError`
(ffmpeg not installed). -/
inductive FfmpegResult where
  | ok : FfmpegResult
  | err : String → FfmpegResult
  | notFound : FfmpegResult
deriving DecidableEq

/-- The exceptions `process_audio` can raise: the two `ValueError`s of
`convert_to_wav`, a loader failure, a writer failure, and the
`ZeroDivisionError` of the duration computation when the final rate is 0. -/
inductive AudioError where
  | conversionFailed : String → AudioError
  | ffmpegNotInstalled : AudioError
  | loadError : String → AudioError
  | encodeError : String → AudioError
  | zeroDivisionError : AudioError
deriving DecidableEq

/-- The message string of each raised error, as built by the source. -/
def errorMessage : AudioError → String
  | .conversionFailed stderr => "Audio conversion failed: " ++ stderr
  | .ffmpegNotInstalled =>
      "ffmpeg is not installed. Please install ffmpeg to process audio files."
  | .loadError p => "could not load " ++ p
  | .encodeError p => "could not write " ++ p
  | .zeroDivisionError => "division by zero"

/-- The sidecar metadata record written next to the output file (the
wall-clock `processing_date_utc` field is outside the embedding). -/
structure Metadata where
  inputFile : String
  outputFile : String
  originalSr : ℕ
  originalDurationSec : Option ℚ
  finalSr : ℕ
  finalDurationSec : ℚ
  processingSteps : List String
deriving DecidableEq

/-- The fixed `processing_steps` list of `process_audio` (lines 177-183). -/
def processingStepsList : List String :=
  ["VAD(librosa.effects.split)",
   "NoiseReduction(noisereduce)",
   "Normalization(peak 0.95)",
   "Resample(16kHz)",
   "Save(16-bit PCM)"]

/-- Oracles for the external library calls consumed by the pipeline.
`load` returns `none` when `librosa.load` raises; `reduceNoise` returns
`none` when `noisereduce.reduce_noise` raises; `writeOk` tells whether
`soundfile.write` succeeds at a path; `metaOk` tells whether the sidecar
JSON write succeeds. -/
structure Env where
  ffmpeg : String → String → FfmpegResult
  load : String → Option (Buf × ℕ)
  split : Buf → ℕ → List (ℕ × ℕ)
  rms : Buf → List ℚ
  reduceNoise : Buf → Buf → ℕ → Option Buf
  resample : Buf → ℕ → ℕ → Buf
  writeOk : String → Bool
  metaOk : Bool

/-- Observable filesystem state threaded through a call: the set of
existing files, the log of data written by `soundfile.write`, the sidecar
records written, and the ffmpeg invocations (count and output paths used). -/
structure St where
  files : Finset String
  written : List (String × Buf)
  sidecars : List (String × Metadata)
  ffmpegCalls : ℕ
  ffmpegOutputs : List String
deriving DecidableEq

/-- The empty filesystem state. -/
def st0 : St := { files := ∅, written := [], sidecars := [], ffmpegCalls := 0, ffmpegOutputs := [] }

/-- Cleanup action of `process_audio`: remove the converted temporary file
if one was created (removal of an absent file is a no-op, and removal
errors are swallowed by the source). -/
def cleanup (st : St) : Option String → St
  | none => st
  | some p => { st with files := st.files.erase p }

/-- The embedding of `convert_to_wav` as called by `process_audio` (with the
default `output_path = None`, so the temporary path is derived from the
input stem). A clean ffmpeg exit creates the output file; a
`CalledProcessError` raises `ValueError` carrying the captured stderr; a
`FileNotFoundError` raises the ffmpeg-not-installed `ValueError`. -/
def convert_to_wav (env : Env) (st : St) (input_path : String) :
    Except AudioError String × St :=
  let output_path := tempConvertedPath input_path
  let st1 := { st with ffmpegCalls := st.ffmpegCalls + 1,
                       ffmpegOutputs := st.ffmpegOutputs ++ [output_path] }
  match env.ffmpeg input_path output_path with
  | .ok => (Except.ok output_path, { st1 with files := insert output_path st1.files })
  | .err stderr => (Except.error (.conversionFailed stderr), st1)
  | .notFound => (Except.error .ffmpegNotInstalled, st1)

/-- Body of the `try` block of `process_audio` after the load path is fixed:
load, VAD, stitching, noise profile, denoise (failure absorbed), peak
normalization, resampling, write, duration, best-effort sidecar write, and
cleanup of the converted temporary on every exit path that reaches it. -/
def pipelineBody (env : Env) (st : St) (input_path output_path : String)
    (target_sr : ℕ) (load_path : String) (conv : Option String) :
    Except AudioError (ℚ × ℕ) × St :=
  match env.load load_path with
  | none => (Except.error (.loadError load_path), cleanup st conv)
  | some (y, sr) =>
    let segments := vad_with_librosa env.split y sr 40 (3/10)
    let y_vad := concatenate_segments y sr segments
    let noise_profile := get_noise_profile env.rms y sr (1/2)
    let y_denoised := denoise_stage env.reduceNoise y_vad y noise_profile sr
    let y_normalized := normalize_peak y_denoised (95/100)
    let rs := if sr ≠ target_sr
              then (env.resample y_normalized sr target_sr, target_sr)
              else (y_normalized, sr)
    let y_resampled := rs.1
    let final_sr := rs.2
    if env.writeOk output_path then
      let st1 := { st with files := insert output_path st.files,
                           written := (output_path, y_resampled) :: st.written }
      if final_sr = 0 then
        (Except.error .zeroDivisionError, cleanup st1 conv)
      else
        let duration : ℚ := (y_resampled.length : ℚ) / (final_sr : ℚ)
        let metadata : Metadata :=
          { inputFile := input_path, outputFile := output_path,
            originalSr := sr,
            originalDurationSec := if sr ≠ 0 then some ((y.length : ℚ) / (sr : ℚ)) else none,
            finalSr := final_sr, finalDurationSec := duration,
            processingSteps := processingStepsList }
        let st2 := if env.metaOk then
            { st1 with files := insert (metaPath output_path) st1.files,
                       sidecars := (metaPath output_path, metadata) :: st1.sidecars }
          else st1
        (Except.ok (duration, final_sr), cleanup st2 conv)
    else (Except.error (.encodeError output_path), cleanup st conv)

/-- The embedding of `process_audio`: convert first when the extension
requires it (a conversion failure propagates with no converted file to clean
up), then run the pipeline body with the converted path scoped for cleanup. -/
def process_audio (env : Env) (st : St) (input_path output_path : String)
    (target_sr : ℕ) : Except AudioError (ℚ × ℕ) × St :=
  if needsConversion input_path then
    match convert_to_wav env st input_path with
    | (Except.ok cpath, st1) =>
        pipelineBody env st1 input_path output_path target_sr cpath (some cpath)
    | (Except.error e, st1) => (Except.error e, st1)
  else
    pipelineBody env st input_path output_path target_sr input_path none

/-- A simple split oracle for concrete runs: one interval covering the
whole buffer. -/
def splitWhole : Buf → ℕ → List (ℕ × ℕ) := fun y _ => [(0, y.length)]

/-- A concrete oracle environment for witness runs: every external call
succeeds, the loader yields the half-amplitude one-sample buffer at rate 2,
and resampling is the identity. -/
def envOracle : Env :=
  { ffmpeg := fun _ _ => FfmpegResult.ok,
    load := fun _ => some ([(1:ℚ)/2], 2),
    split := splitWhole,
    rms := fun _ => [1],
    reduceNoise := fun t _ _ => some t,
    resample := fun y _ _ => y,
    writeOk := fun _ => true,
    metaOk := true }

/-- The oracle environment with a denoiser that always raises. -/
def envDen : Env := { envOracle with reduceNoise := fun _ _ _ => none }

/-- The oracle environment with a resampler whose output buffer `[2]` has a
peak above the normalization target (band-limited interpolation is not
peak-preserving, so an overshooting resampler is a legitimate behaviour of
the library call). -/
def envOver : Env := { envOracle with resample := fun _ _ _ => [2] }

/-- The oracle environment in which ffmpeg exits non-zero with captured
stderr text `boom`. -/
def envExit : Env := { envOracle with ffmpeg := fun _ _ => FfmpegResult.err "boom" }

/-- The sidecar metadata record produced by the concrete `envDen` run used
in the C4 analysis. -/
def mdDen : Metadata :=
  { inputFile := "a.wav", outputFile := "o.wav", originalSr := 2,
    originalDurationSec := some (1/2), finalSr := 2, finalDurationSec := 1/2,
    processingSteps := processingStepsList }

/-! Helper lemmas about the state threading of the pipeline. -/

/-- Cleanup leaves every state field except `files` unchanged. -/
theorem cleanup_written (st : St) (conv : Option String) :
    (cleanup st conv).written = st.written := by
  cases conv <;> rfl

/-- Cleanup does not touch the sidecar log. -/
theorem cleanup_sidecars (st : St) (conv : Option String) :
    (cleanup st conv).sidecars = st.sidecars := by
  cases conv <;> rfl

/-- Cleanup does not touch the ffmpeg invocation log. -/
theorem cleanup_ffmpegOutputs (st : St) (conv : Option String) :
    (cleanup st conv).ffmpegOutputs = st.ffmpegOutputs := by
  cases conv <;> rfl

/-- Cleanup does not touch the ffmpeg invocation counter. -/
theorem cleanup_ffmpegCalls (st : St) (conv : Option String) :
    (cleanup st conv).ffmpegCalls = st.ffmpegCalls := by
  cases conv <;> rfl

/-- Every exit path of the pipeline body runs the cleanup action on its
converted-file argument, and no path invokes ffmpeg. -/
theorem pipelineBody_state (env : Env) (st : St) (i o : String) (tsr : ℕ)
    (lp : String) (conv : Option String) :
    ∃ mid : St, (pipelineBody env st i o tsr lp conv).2 = cleanup mid conv
      ∧ mid.ffmpegOutputs = st.ffmpegOutputs ∧ mid.ffmpegCalls = st.ffmpegCalls := by
  simp only [pipelineBody]
  rcases env.load lp with _ | ⟨y, sr⟩
  · exact ⟨st, rfl, rfl, rfl⟩
  · simp only
    repeat' split
    all_goals exact ⟨_, rfl, rfl, rfl⟩

/-- With a positive target rate, every failing exit of the pipeline body
happens before any state mutation other than cleanup: the final state is
exactly the cleanup of the incoming state. -/
theorem pipelineBody_err (env : Env) (st : St) (i o : String) (tsr : ℕ)
    (lp : String) (conv : Option String) (e : AudioError)
    (htsr : 0 < tsr)
    (h : (pipelineBody env st i o tsr lp conv).1 = Except.error e) :
    (pipelineBody env st i o tsr lp conv).2 = cleanup st conv := by
  rcases hl : env.load lp with _ | ⟨y, sr⟩
  · simp only [pipelineBody, hl]
  · simp only [pipelineBody, hl] at h ⊢
    repeat' split at h
    all_goals simp_all

/-- On success the reported final sample rate is exactly the target rate:
both branches of the resampling conditional set it to `target_sr`. -/
theorem pipelineBody_ok_sr (env : Env) (st : St) (i o : String) (tsr : ℕ)
    (lp : String) (conv : Option String) (d : ℚ) (fsr : ℕ)
    (h : (pipelineBody env st i o tsr lp conv).1 = Except.ok (d, fsr)) :
    fsr = tsr := by
  rcases hl : env.load lp with _ | ⟨y, sr⟩
  · simp [pipelineBody, hl] at h
  · simp only [pipelineBody, hl] at h
    repeat' split at h
    all_goals simp_all

/-- On a successful run with the sidecar write succeeding, the sidecar log
gains exactly one record, at the metadata path, whose recorded step list is
the fixed `processingStepsList`. -/
theorem pipelineBody_ok_sidecars (env : Env) (st : St) (i o : String) (tsr : ℕ)
    (lp : String) (conv : Option String) (d : ℚ) (fsr : ℕ)
    (h : (pipelineBody env st i o tsr lp conv).1 = Except.ok (d, fsr))
    (hm : env.metaOk = true) :
    ∃ md : Metadata, (pipelineBody env st i o tsr lp conv).2.sidecars =
        (metaPath o, md) :: st.sidecars
      ∧ md.processingSteps = processingStepsList := by
  rcases hl : env.load lp with _ | ⟨y, sr⟩
  · simp [pipelineBody, hl] at h
  · simp only [pipelineBody, hl] at h ⊢
    repeat' split at h
    all_goals simp_all [cleanup_sidecars]

/-- On a successful run the output file data is logged exactly once, and
when no resampling was needed (native rate equal to target) the written
buffer is the peak-normalized buffer itself. -/
theorem pipelineBody_ok_written (env : Env) (st : St) (i o : String) (tsr : ℕ)
    (lp : String) (conv : Option String) (d : ℚ) (fsr : ℕ)
    (h : (pipelineBody env st i o tsr lp conv).1 = Except.ok (d, fsr)) :
    ∃ y sr buf, env.load lp = some (y, sr)
      ∧ (pipelineBody env st i o tsr lp conv).2.written = (o, buf) :: st.written
      ∧ (sr = tsr → ∃ z, buf = normalize_peak z (95/100)) := by
  rcases hl : env.load lp with _ | ⟨y, sr⟩
  · simp [pipelineBody, hl] at h
  · simp only [pipelineBody, hl] at h ⊢
    refine ⟨y, sr, ?_⟩
    repeat' split at h
    all_goals simp_all [cleanup_written]
    all_goals exact ⟨_, rfl⟩

/-- With the loader succeeding, the writer succeeding at the output path and
a positive target rate, the pipeline body succeeds and reports the target
rate. -/
theorem pipelineBody_ok_of (env : Env) (st : St) (i o : String) (tsr : ℕ)
    (lp : String) (conv : Option String) (y : Buf) (sr : ℕ)
    (hl : env.load lp = some (y, sr)) (hw : env.writeOk o = true)
    (htsr : 0 < tsr) :
    ∃ d, (pipelineBody env st i o tsr lp conv).1 = Except.ok (d, tsr) := by
  simp only [pipelineBody, hl]
  repeat' split
  all_goals simp_all

/-- The pipeline body never consults the ffmpeg oracle. -/
theorem pipelineBody_ffmpeg_irrel (env : Env) (f : String → String → FfmpegResult)
    (st : St) (i o : String) (tsr : ℕ) (lp : String) (conv : Option String) :
    pipelineBody { env with ffmpeg := f } st i o tsr lp conv =
      pipelineBody env st i o tsr lp conv := by
  cases env
  rfl

/-! Claim theorems. -/

/-- Claim C2: for every input on which `process_audio` succeeds, the
returned final sample rate equals the `target_sr` argument exactly, in both
the no-resample branch (where the native rate already equals the target) and
the resampling branch. -/
theorem C2_final_sr_eq_target (env : Env) (st : St) (i o : String) (tsr : ℕ)
    (d : ℚ) (fsr : ℕ)
    (h : (process_audio env st i o tsr).1 = Except.ok (d, fsr)) :
    fsr = tsr := by
  by_cases hnc : needsConversion i
  · simp only [process_audio, hnc, if_true] at h
    rcases hf : convert_to_wav env st i with ⟨r, st1⟩
    rw [hf] at h
    cases r with
    | ok c => exact pipelineBody_ok_sr env st1 i o tsr c (some c) d fsr h
    | error e => simp at h
  · simp only [process_audio, hnc, if_false] at h
    exact pipelineBody_ok_sr env st i o tsr i none d fsr h

/-- Witness for C2: a concrete successful run returns the target rate. -/
theorem C2_witness : (2 : ℕ) = 2 :=
  C2_final_sr_eq_target envOracle st0 "a.wav" "o.wav" 2 (1/2) 2
    (by with_unfolding_all decide)

/-- Claim C1: for every input whose extension requires conversion, an
absent decode utility or a non-zero exit makes `process_audio` fail with a
reported error carrying the captured diagnostic text; for every input whose
extension does not require conversion, no decode subprocess is invoked and
the call succeeds (and is independent of the utility) whenever the remaining
stages succeed. -/
theorem C1_conversion_error_handling (env : Env) (st : St) (i o : String) (tsr : ℕ) :
    (∀ s, needsConversion i = true →
      env.ffmpeg i (tempConvertedPath i) = FfmpegResult.err s →
      (process_audio env st i o tsr).1 = Except.error (AudioError.conversionFailed s)
      ∧ errorMessage (AudioError.conversionFailed s) = "Audio conversion failed: " ++ s)
    ∧ (needsConversion i = true →
      env.ffmpeg i (tempConvertedPath i) = FfmpegResult.notFound →
      (process_audio env st i o tsr).1 = Except.error AudioError.ffmpegNotInstalled)
    ∧ (needsConversion i = false →
        (process_audio env st i o tsr).2.ffmpegCalls = st.ffmpegCalls
        ∧ (process_audio env st i o tsr).2.ffmpegOutputs = st.ffmpegOutputs
        ∧ (∀ f, process_audio { env with ffmpeg := f } st i o tsr =
            process_audio env st i o tsr)
        ∧ (∀ y sr, env.load i = some (y, sr) → env.writeOk o = true → 0 < tsr →
            ∃ d, (process_audio env st i o tsr).1 = Except.ok (d, tsr))) := by
  refine ⟨?_, ?_, ?_⟩
  · intro s hnc hf
    refine ⟨?_, rfl⟩
    simp only [process_audio, hnc, if_true, convert_to_wav, hf]
  · intro hnc hf
    simp only [process_audio, hnc, if_true, convert_to_wav, hf]
  · intro hnc
    have hp : process_audio env st i o tsr = pipelineBody env st i o tsr i none := by
      simp only [process_audio, hnc, Bool.false_eq_true, if_false]
    refine ⟨?_, ?_, ?_, ?_⟩
    · obtain ⟨mid, hmid, hout, hcalls⟩ := pipelineBody_state env st i o tsr i none
      rw [hp, hmid, cleanup_ffmpegCalls, hcalls]
    · obtain ⟨mid, hmid, hout, hcalls⟩ := pipelineBody_state env st i o tsr i none
      rw [hp, hmid, cleanup_ffmpegOutputs, hout]
    · intro f
      have hp2 : process_audio { env with ffmpeg := f } st i o tsr =
          pipelineBody { env with ffmpeg := f } st i o tsr i none := by
        simp only [process_audio, hnc, Bool.false_eq_true, if_false]
      rw [hp, hp2, pipelineBody_ffmpeg_irrel]
    · intro y sr hl hw htsr
      rw [hp]
      exact pipelineBody_ok_of env st i o tsr i none y sr hl hw htsr

/-- Witness for C1: with a non-zero ffmpeg exit carrying stderr `boom`, a
concrete `.mp3` run fails with the reported text, and a concrete `.wav` run
with the same broken utility succeeds without invoking it. -/
theorem C1_witness :
    ((process_audio envExit st0 "a.mp3" "o.wav" 2).1 =
        Except.error (AudioError.conversionFailed "boom")
      ∧ errorMessage (AudioError.conversionFailed "boom") =
        "Audio conversion failed: " ++ "boom")
    ∧ (process_audio envExit st0 "a.wav" "o.wav" 2).2.ffmpegCalls = st0.ffmpegCalls
    ∧ (∃ d, (process_audio envExit st0 "a.wav" "o.wav" 2).1 = Except.ok (d, 2)) := by
  refine ⟨?_, ?_, ?_⟩
  · exact (C1_conversion_error_handling envExit st0 "a.mp3" "o.wav" 2).1 "boom"
      (by with_unfolding_all decide) rfl
  · exact ((C1_conversion_error_handling envExit st0 "a.wav" "o.wav" 2).2.2
      (by with_unfolding_all decide)).1
  · exact ((C1_conversion_error_handling envExit st0 "a.wav" "o.wav" 2).2.2
      (by with_unfolding_all decide)).2.2.2 [(1:ℚ)/2] 2 rfl rfl (by decide)

/-- Claim C8: on every exit path of `process_audio` — success or error —
the temporary decoded file is absent from the final filesystem state, and a
failed run (with a positive target rate) adds no output file, no sidecar
record and no written data, so it is retryable from scratch. -/
theorem C8_cleanup_every_exit (env : Env) (st : St) (i o : String) (tsr : ℕ) :
    (needsConversion i = true → tempConvertedPath i ∉ st.files →
       tempConvertedPath i ∉ (process_audio env st i o tsr).2.files)
    ∧ (∀ e, (process_audio env st i o tsr).1 = Except.error e → 0 < tsr →
        (o ∉ st.files → o ∉ (process_audio env st i o tsr).2.files)
        ∧ (process_audio env st i o tsr).2.sidecars = st.sidecars
        ∧ (process_audio env st i o tsr).2.written = st.written) := by
  constructor
  · intro hnc htmp
    simp only [process_audio, hnc, if_true, convert_to_wav]
    rcases hf : env.ffmpeg i (tempConvertedPath i) with _ | s | _
    · obtain ⟨mid, hmid, -, -⟩ := pipelineBody_state env
        { st with ffmpegCalls := st.ffmpegCalls + 1,
                  ffmpegOutputs := st.ffmpegOutputs ++ [tempConvertedPath i],
                  files := insert (tempConvertedPath i) st.files }
        i o tsr (tempConvertedPath i) (some (tempConvertedPath i))
      rw [hmid]
      exact Finset.not_mem_erase _ _
    · exact htmp
    · exact htmp
  · intro e herr htsr
    by_cases hnc : needsConversion i
    · simp only [process_audio, hnc, if_true, convert_to_wav] at herr ⊢
      rcases hf : env.ffmpeg i (tempConvertedPath i) with _ | s | _ <;>
        simp only [hf] at herr ⊢
      · rw [pipelineBody_err _ _ _ _ _ _ _ _ htsr herr]
        simp only [cleanup]
        refine ⟨fun ho => ?_, by trivial, by trivial⟩
        simp only [Finset.mem_erase, Finset.mem_insert]
        intro hcon
        rcases hcon.2 with h1 | h2
        · exact hcon.1 h1
        · exact ho h2
      · exact ⟨fun ho => ho, by trivial, by trivial⟩
      · exact ⟨fun ho => ho, by trivial, by trivial⟩
    · simp only [process_audio, hnc, Bool.false_eq_true, if_false] at herr ⊢
      rw [pipelineBody_err _ _ _ _ _ _ _ _ htsr herr]
      exact ⟨fun ho => ho, by trivial, by trivial⟩

/-- Witness for C8: a concrete converted run ends with the temporary file
absent, and a concrete failing run (broken writer) leaves no artifacts. -/
theorem C8_witness :
    tempConvertedPath "rec.mp3" ∉
      (process_audio envOracle st0 "rec.mp3" "o.wav" 2).2.files
    ∧ "o.wav" ∉
      (process_audio { envOracle with writeOk := fun _ => false } st0 "a.wav" "o.wav" 2).2.files := by
  constructor
  · exact (C8_cleanup_every_exit envOracle st0 "rec.mp3" "o.wav" 2).1 rfl (by decide)
  · exact (((C8_cleanup_every_exit { envOracle with writeOk := fun _ => false }
      st0 "a.wav" "o.wav" 2).2 (AudioError.encodeError "o.wav")
      (by with_unfolding_all decide) (by decide)).1 (by decide))

/-- Claim C9 counterexample: two invocations of the pipeline on the same
input path record the same temporary decode artifact name
(`rec_converted.wav` twice), so temporary names are not distinct per call. -/
theorem C9_counterexample :
    (process_audio envOracle
        (process_audio envOracle st0 "rec.mp3" "o1.wav" 2).2
        "rec.mp3" "o2.wav" 2).2.ffmpegOutputs =
      ["rec_converted.wav", "rec_converted.wav"] := by
  with_unfolding_all decide

/-- Claim C9 amended: the temporary decode artifact name is a deterministic
function of the input path alone (input stem plus `_converted.wav`); each
converting invocation records exactly that name, so invocations on the same
input path share it rather than generating distinct per-call names. -/
theorem C9_amended_temp_name_deterministic (env : Env) (st : St) (i o : String)
    (tsr : ℕ) :
    (process_audio env st i o tsr).2.ffmpegOutputs =
      st.ffmpegOutputs ++
        (if needsConversion i then [tempConvertedPath i] else []) := by
  by_cases hnc : needsConversion i
  · simp only [process_audio, hnc, if_true, convert_to_wav]
    rcases hf : env.ffmpeg i (tempConvertedPath i) with _ | s | _
    · obtain ⟨mid, hmid, hout, -⟩ := pipelineBody_state env
        { st with ffmpegCalls := st.ffmpegCalls + 1,
                  ffmpegOutputs := st.ffmpegOutputs ++ [tempConvertedPath i],
                  files := insert (tempConvertedPath i) st.files }
        i o tsr (tempConvertedPath i) (some (tempConvertedPath i))
      rw [hmid, cleanup_ffmpegOutputs, hout]
    · rfl
    · rfl
  · simp only [process_audio, hnc, Bool.false_eq_true, if_false]
    obtain ⟨mid, hmid, hout, -⟩ := pipelineBody_state env st i o tsr i none
    rw [hmid, cleanup_ffmpegOutputs, hout, List.append_nil]

/-- Claim C4 counterexample: with a denoiser that always raises, a concrete
run of `process_audio` completes successfully, yet the sidecar record's
`processing_steps` still contains the denoise step name
`NoiseReduction(noisereduce)` — the claim says it is excluded. -/
theorem C4_counterexample :
    (process_audio envDen st0 "a.wav" "o.wav" 2).1 = Except.ok (1/2, 2)
    ∧ (process_audio envDen st0 "a.wav" "o.wav" 2).2.sidecars =
        [(metaPath "o.wav", mdDen)]
    ∧ "NoiseReduction(noisereduce)" ∈ mdDen.processingSteps := by
  with_unfolding_all decide

/-- Claim C4 amended: on denoiser failure `process_audio` still completes
successfully, but the recorded `processing_steps` is the fixed constant list
of the source (lines 177-183), which always includes the denoise step name
regardless of whether denoising executed. -/
theorem C4_amended_steps_fixed (env : Env) (st : St) (i o : String) (tsr : ℕ)
    (d : ℚ) (fsr : ℕ)
    (hrn : ∀ a b c, env.reduceNoise a b c = none)
    (hok : (process_audio env st i o tsr).1 = Except.ok (d, fsr))
    (hm : env.metaOk = true) :
    ∃ md : Metadata, (process_audio env st i o tsr).2.sidecars =
        (metaPath o, md) :: st.sidecars
      ∧ md.processingSteps = processingStepsList
      ∧ "NoiseReduction(noisereduce)" ∈ md.processingSteps := by
  by_cases hnc : needsConversion i
  · simp only [process_audio, hnc, if_true, convert_to_wav] at hok ⊢
    rcases hf : env.ffmpeg i (tempConvertedPath i) with _ | s | _ <;>
      simp only [hf] at hok ⊢
    · obtain ⟨md, hmd, hsteps⟩ := pipelineBody_ok_sidecars env _ i o tsr
        (tempConvertedPath i) (some (tempConvertedPath i)) d fsr hok hm
      exact ⟨md, hmd, hsteps, by rw [hsteps]; simp [processingStepsList]⟩
    · simp at hok
    · simp at hok
  · simp only [process_audio, hnc, Bool.false_eq_true, if_false] at hok ⊢
    obtain ⟨md, hmd, hsteps⟩ := pipelineBody_ok_sidecars env st i o tsr i none
      d fsr hok hm
    exact ⟨md, hmd, hsteps, by rw [hsteps]; simp [processingStepsList]⟩

/-- Witness for the amended C4: applied to the concrete failing-denoiser
run. -/
theorem C4_witness :
    ∃ md : Metadata, (process_audio envDen st0 "a.wav" "o.wav" 2).2.sidecars =
        (metaPath "o.wav", md) :: st0.sidecars
      ∧ md.processingSteps = processingStepsList
      ∧ "NoiseReduction(noisereduce)" ∈ md.processingSteps :=
  C4_amended_steps_fixed envDen st0 "a.wav" "o.wav" 2 (1/2) 2
    (fun _ _ _ => rfl) (by with_unfolding_all decide) rfl

/-- Claim C5: the denoise stage input is the stitched speech-only buffer
when nonempty and otherwise the full original buffer, and a raising
spectral-gating computation is absorbed, yielding the pre-denoise input
unchanged (on success the oracle output is used). -/
theorem C5_denoise_fallback (rn : Buf → Buf → ℕ → Option Buf)
    (y_vad y noise : Buf) (sr : ℕ) :
    (y_vad ≠ [] → denoiseInput y_vad y = y_vad)
    ∧ (y_vad = [] → denoiseInput y_vad y = y)
    ∧ (rn (denoiseInput y_vad y) noise sr = none →
        denoise_stage rn y_vad y noise sr = denoiseInput y_vad y)
    ∧ (∀ d, rn (denoiseInput y_vad y) noise sr = some d →
        denoise_stage rn y_vad y noise sr = d) := by
  refine ⟨?_, ?_, ?_, ?_⟩
  · intro hne
    simp [denoiseInput, List.length_pos, hne]
  · intro he
    simp [denoiseInput, he]
  · intro hr
    simp [denoise_stage, hr]
  · intro d hr
    simp [denoise_stage, hr]

/-- Witness for C5: the fallback at a concrete nonempty stitched buffer and
an always-raising gating computation. -/
theorem C5_witness :
    denoiseInput [(1:ℚ)] [(2:ℚ), 3] = [(1:ℚ)]
    ∧ denoise_stage (fun _ _ _ => none) [(1:ℚ)] [(2:ℚ), 3] [] 4 =
        denoiseInput [(1:ℚ)] [(2:ℚ), 3] := by
  refine ⟨?_, ?_⟩
  · exact (C5_denoise_fallback (fun _ _ _ => none) [(1:ℚ)] [(2:ℚ), 3] [] 4).1
      (by decide)
  · exact (C5_denoise_fallback (fun _ _ _ => none) [(1:ℚ)] [(2:ℚ), 3] [] 4).2.2.1
      rfl

/-! Peak-normalization lemmas. -/

/-- The peak of a cons is the max of the head magnitude and the tail peak. -/
theorem peakAbs_cons (a : ℚ) (l : Buf) : peakAbs (a :: l) = max |a| (peakAbs l) := rfl

/-- The amplitude peak is nonnegative. -/
theorem peakAbs_nonneg (y : Buf) : 0 ≤ peakAbs y := by
  induction y with
  | nil => exact le_refl 0
  | cons a l ih => exact le_trans ih (by rw [peakAbs_cons]; exact le_max_right _ _)

/-- Scaling every sample by a nonnegative factor scales the peak. -/
theorem peakAbs_map_mul (c : ℚ) (hc : 0 ≤ c) (y : Buf) :
    peakAbs (y.map fun a => a * c) = peakAbs y * c := by
  induction y with
  | nil => simp [peakAbs]
  | cons a l ih =>
    simp only [List.map_cons, peakAbs_cons, ih, abs_mul, abs_of_nonneg hc]
    rw [max_mul_of_nonneg _ _ hc]

/-- Empty and all-zero buffers pass through `normalize_peak` unchanged. -/
theorem normalize_peak_of_zero (y : Buf) (tp : ℚ) (h : y = [] ∨ peakAbs y = 0) :
    normalize_peak y tp = y := by
  rcases h with h | h
  · simp [normalize_peak, h]
  · simp [normalize_peak, h]

/-- On a buffer with nonzero peak, normalization sets the peak to exactly
the (nonnegative) target. -/
theorem peakAbs_normalize (y : Buf) (tp : ℚ) (hp : peakAbs y ≠ 0) (htp : 0 ≤ tp) :
    peakAbs (normalize_peak y tp) = tp := by
  have hy : y.length ≠ 0 := by
    intro hl
    rw [List.length_eq_zero] at hl
    exact hp (by simp [hl, peakAbs])
  have hpos : 0 < peakAbs y := lt_of_le_of_ne (peakAbs_nonneg y) (Ne.symm hp)
  simp only [normalize_peak, hy, if_false, hp, if_neg]
  have hdiv : (y.map fun a => a / peakAbs y) = y.map fun a => a * (peakAbs y)⁻¹ := by
    simp [div_eq_mul_inv]
  rw [hdiv, peakAbs_map_mul tp htp, peakAbs_map_mul _ (inv_nonneg.mpr (le_of_lt hpos)),
    mul_inv_cancel₀ hp, one_mul]

/-- The normalized buffer never exceeds the 0.95 target peak. -/
theorem peakAbs_normalize_le (y : Buf) :
    peakAbs (normalize_peak y (95/100)) ≤ 95/100 := by
  by_cases hp : peakAbs y = 0
  · rw [normalize_peak_of_zero y _ (Or.inr hp), hp]
    norm_num
  · rw [peakAbs_normalize y _ hp (by norm_num)]

/-- Claim C3 counterexample: the source normalizes before resampling and
never re-normalizes, so with a resampler output of peak 2 (the resampler is
an unconstrained library transform; band-limited interpolation does not
preserve peak bounds) a concrete successful run writes a final buffer whose
peak exceeds 0.95, even though the signal at the normalization stage was
neither empty nor all-zero. -/
theorem C3_counterexample :
    (process_audio envOver st0 "a.wav" "o.wav" 1).1 = Except.ok (1, 1)
    ∧ (process_audio envOver st0 "a.wav" "o.wav" 1).2.written = [("o.wav", [2])]
    ∧ ¬ peakAbs [(2:ℚ)] ≤ 95/100
    ∧ denoise_stage envOver.reduceNoise
        (concatenate_segments [(1:ℚ)/2] 2 (vad_with_librosa envOver.split [(1:ℚ)/2] 2 40 (3/10)))
        [(1:ℚ)/2]
        (get_noise_profile envOver.rms [(1:ℚ)/2] 2 (1/2)) 2 = [(1:ℚ)/2]
    ∧ peakAbs [(1:ℚ)/2] ≠ 0 ∧ ([(1:ℚ)/2] : Buf) ≠ [] := by
  with_unfolding_all decide

/-- Claim C3 amended: `normalize_peak` returns empty and all-zero buffers
unchanged (division by a zero peak never occurs) and otherwise produces a
buffer of peak exactly 0.95; the buffer handed to the resampler therefore
has peak at most 0.95, and when no resampling is performed (native rate
equal to the target) the final written buffer itself has peak at most 0.95.
After a genuine rate conversion the bound depends on the resampling library
transform, which runs after normalization. -/
theorem C3_amended_peak_bound (env : Env) (st : St) (i o : String) (tsr : ℕ)
    (d : ℚ) (fsr : ℕ) :
    (∀ (y : Buf) (tp : ℚ), y = [] ∨ peakAbs y = 0 → normalize_peak y tp = y)
    ∧ (∀ y : Buf, peakAbs y ≠ 0 → peakAbs (normalize_peak y (95/100)) = 95/100)
    ∧ ((process_audio env st i o tsr).1 = Except.ok (d, fsr) →
       (∀ p yb srb, env.load p = some (yb, srb) → srb = tsr) →
       ∃ buf rest, (process_audio env st i o tsr).2.written = (o, buf) :: rest
         ∧ peakAbs buf ≤ 95/100) := by
  refine ⟨normalize_peak_of_zero, fun y hp => peakAbs_normalize y _ hp (by norm_num), ?_⟩
  intro hok hload
  by_cases hnc : needsConversion i
  · simp only [process_audio, hnc, if_true, convert_to_wav] at hok ⊢
    rcases hf : env.ffmpeg i (tempConvertedPath i) with _ | s | _ <;>
      simp only [hf] at hok ⊢
    · obtain ⟨y, sr, buf, hl, hw, hn⟩ := pipelineBody_ok_written env _ i o tsr
        (tempConvertedPath i) (some (tempConvertedPath i)) d fsr hok
      obtain ⟨z, hz⟩ := hn (hload _ _ _ hl)
      exact ⟨buf, _, hw, by rw [hz]; exact peakAbs_normalize_le z⟩
    · simp at hok
    · simp at hok
  · simp only [process_audio, hnc, Bool.false_eq_true, if_false] at hok ⊢
    obtain ⟨y, sr, buf, hl, hw, hn⟩ := pipelineBody_ok_written env st i o tsr
      i none d fsr hok
    obtain ⟨z, hz⟩ := hn (hload _ _ _ hl)
    exact ⟨buf, _, hw, by rw [hz]; exact peakAbs_normalize_le z⟩

/-- Witness for the amended C3: the concrete no-resample run writes a
buffer of peak at most 0.95. -/
theorem C3_witness :
    ∃ buf rest, (process_audio envOracle st0 "a.wav" "o.wav" 2).2.written =
        ("o.wav", buf) :: rest ∧ peakAbs buf ≤ 95/100 :=
  (C3_amended_peak_bound envOracle st0 "a.wav" "o.wav" 2 (1/2) 2).2.2
    (by with_unfolding_all decide)
    (fun p yb srb h => (congrArg Prod.snd (Option.some.inj h)).symm)

/-! VAD and stitching lemmas. -/

/-- A filterMap whose function is a guarded `some` is a filter followed by
a map. -/
theorem filterMap_ite_eq_filter_map {α β : Type} (p : α → Prop) [DecidablePred p]
    (f : α → β) (l : List α) :
    (l.filterMap fun x => if p x then some (f x) else none) =
      (l.filter fun x => decide (p x)).map f := by
  induction l with
  | nil => rfl
  | cons a t ih =>
    by_cases h : p a <;> simp [List.filterMap_cons, List.filter_cons, h, ih]

/-- The VAD is the duration filter of the oracle intervals followed by the
seconds conversion. -/
theorem vad_eq_filter_map (split : Buf → ℕ → List (ℕ × ℕ)) (y : Buf) (sr : ℕ)
    (top_db : ℕ) (md : ℚ) :
    vad_with_librosa split y sr top_db md =
      ((split y top_db).filter fun p =>
          decide (md ≤ ((p.2 : ℚ) - (p.1 : ℚ)) / (sr : ℚ))).map
        fun p => ((p.1 : ℚ) / (sr : ℚ), (p.2 : ℚ) / (sr : ℚ)) := by
  unfold vad_with_librosa
  exact filterMap_ite_eq_filter_map _ _ _

/-- Division by the (nonnegative) sample rate is monotone on indices. -/
theorem div_sr_mono (sr : ℕ) (m n : ℕ) (hmn : m ≤ n) :
    (m : ℚ) / (sr : ℚ) ≤ (n : ℚ) / (sr : ℚ) := by
  rw [div_eq_mul_inv, div_eq_mul_inv]
  exact mul_le_mul_of_nonneg_right (by exact_mod_cast hmn)
    (inv_nonneg.mpr (Nat.cast_nonneg sr))

/-- Claim C6: the VAD returns exactly the candidate intervals of duration at
least the minimum segment duration, converted to seconds as index over rate,
and — whenever the oracle intervals are left-to-right and non-overlapping,
as `librosa.effects.split` produces them — the returned list has
non-decreasing starts and no two segments overlap. -/
theorem C6_vad_filter_ordered (split : Buf → ℕ → List (ℕ × ℕ)) (y : Buf) (sr : ℕ)
    (top_db : ℕ) (md : ℚ) (hsr : 0 < sr)
    (hord : List.Pairwise (fun a b : ℕ × ℕ => a.2 ≤ b.1) (split y top_db))
    (hse : ∀ p ∈ split y top_db, p.1 ≤ p.2) :
    vad_with_librosa split y sr top_db md =
      ((split y top_db).filter fun p =>
          decide (md ≤ ((p.2 : ℚ) - (p.1 : ℚ)) / (sr : ℚ))).map
        (fun p => ((p.1 : ℚ) / (sr : ℚ), (p.2 : ℚ) / (sr : ℚ)))
    ∧ (∀ s ∈ vad_with_librosa split y sr top_db md, ∃ p ∈ split y top_db,
         md ≤ ((p.2 : ℚ) - (p.1 : ℚ)) / (sr : ℚ)
         ∧ s = ((p.1 : ℚ) / (sr : ℚ), (p.2 : ℚ) / (sr : ℚ)))
    ∧ (∀ p ∈ split y top_db, md ≤ ((p.2 : ℚ) - (p.1 : ℚ)) / (sr : ℚ) →
         ((p.1 : ℚ) / (sr : ℚ), (p.2 : ℚ) / (sr : ℚ)) ∈
           vad_with_librosa split y sr top_db md)
    ∧ List.Pairwise (fun a b : ℚ × ℚ => a.1 ≤ b.1 ∧ a.2 ≤ b.1)
        (vad_with_librosa split y sr top_db md) := by
  refine ⟨vad_eq_filter_map split y sr top_db md, ?_, ?_, ?_⟩
  · intro s hs
    rw [vad_eq_filter_map] at hs
    obtain ⟨p, hp, rfl⟩ := List.mem_map.mp hs
    have hm := List.mem_filter.mp hp
    exact ⟨p, hm.1, by simpa using hm.2, rfl⟩
  · intro p hp hdur
    rw [vad_eq_filter_map]
    exact List.mem_map.mpr ⟨p, List.mem_filter.mpr ⟨hp, by simpa using hdur⟩, rfl⟩
  · rw [vad_eq_filter_map, List.pairwise_map]
    refine List.Pairwise.imp_of_mem ?_ (hord.filter _)
    intro a b ha hb hab
    have ha2 : a.1 ≤ a.2 := hse a (List.mem_of_mem_filter ha)
    exact ⟨div_sr_mono sr _ _ (le_trans ha2 hab), div_sr_mono sr _ _ hab⟩

/-- Witness for C6: on the concrete interval list `[(0,4),(5,6)]` at rate
10, the 0.4 s candidate is kept, the 0.1 s candidate is dropped, and the
result is ordered and non-overlapping. -/
theorem C6_witness :
    (((0:ℕ):ℚ) / ((10:ℕ):ℚ), ((4:ℕ):ℚ) / ((10:ℕ):ℚ)) ∈
      vad_with_librosa (fun _ _ => [(0,4),(5,6)]) [(1:ℚ)] 10 40 (3/10)
    ∧ List.Pairwise (fun a b : ℚ × ℚ => a.1 ≤ b.1 ∧ a.2 ≤ b.1)
        (vad_with_librosa (fun _ _ => [(0,4),(5,6)]) [(1:ℚ)] 10 40 (3/10)) := by
  constructor
  · exact (C6_vad_filter_ordered (fun _ _ => [(0,4),(5,6)]) [(1:ℚ)] 10 40 (3/10)
      (by decide) (by decide) (by decide)).2.2.1 (0,4) (by decide) (by norm_num)
  · exact (C6_vad_filter_ordered (fun _ _ => [(0,4),(5,6)]) [(1:ℚ)] 10 40 (3/10)
      (by decide) (by decide) (by decide)).2.2.2

/-! Noise-profile lemmas. -/

/-- Claim C7 counterexample: at sample rate 1 a one-sample buffer is at
least `int(0.5 * sr) = 0` samples long, so the claim promises the first-0.5 s
prefix (the empty buffer), but the source guard `n_samples > 0` fails and
the code falls through to the lowest-energy window, returning the nonempty
window `[1]` (the rms oracle returns a one-frame energy series, as
`librosa.feature.rms` does on a one-sample buffer). -/
theorem C7_counterexample :
    0 < (1:ℕ)
    ∧ truncQ ((1/2) * ((1:ℕ):ℚ)) ≤ (([(1:ℚ)] : Buf).length : ℤ)
    ∧ get_noise_profile (fun _ => [1]) [(1:ℚ)] 1 (1/2) ≠
        ([(1:ℚ)] : Buf).take (truncQ ((1/2) * ((1:ℕ):ℚ))).toNat := by
  with_unfolding_all decide

/-- Claim C7 amended: `get_noise_profile` never raises and returns the first
`int(0.5 * sr)` samples when the buffer is at least that long AND that count
is positive; otherwise, when the per-frame energy series is empty, the
buffer unchanged, and in the remaining case a window around the lowest-RMS
frame clipped to the buffer bounds — in every case a contiguous sub-window
of the buffer. -/
theorem C7_amended_noise_profile (rms : Buf → List ℚ) (y : Buf) (sr : ℕ) :
    (truncQ ((1/2) * (sr:ℚ)) ≤ (y.length : ℤ) → 0 < truncQ ((1/2) * (sr:ℚ)) →
       get_noise_profile rms y sr (1/2) = y.take (truncQ ((1/2) * (sr:ℚ))).toNat)
    ∧ (¬ (truncQ ((1/2) * (sr:ℚ)) ≤ (y.length : ℤ) ∧ 0 < truncQ ((1/2) * (sr:ℚ))) →
       (rms y).length = 0 → get_noise_profile rms y sr (1/2) = y)
    ∧ (∃ a b : ℕ, get_noise_profile rms y sr (1/2) = (y.take b).drop a) := by
  refine ⟨?_, ?_, ?_⟩
  · intro hlen hpos
    have hcond : truncQ ((1/2) * (sr:ℚ)) ≤ (y.length : ℤ) ∧ 0 < truncQ ((1/2) * (sr:ℚ)) :=
      ⟨hlen, hpos⟩
    simp only [get_noise_profile]
    rw [if_pos hcond]
    have h0 : clampIdx y.length 0 = 0 := by simp [clampIdx]
    have hn : clampIdx y.length (truncQ ((1/2) * (sr:ℚ))) =
        (truncQ ((1/2) * (sr:ℚ))).toNat := by
      simp only [clampIdx, if_neg (not_lt.mpr (le_of_lt hpos))]
      exact min_eq_left (by omega)
    rw [pySlice, h0, hn, List.drop_zero]
  · intro hcond he
    simp only [get_noise_profile]
    rw [if_neg hcond, if_pos he]
  · simp only [get_noise_profile]
    split
    · exact ⟨clampIdx y.length 0, clampIdx y.length (truncQ ((1/2) * (sr:ℚ))), rfl⟩
    · split
      · exact ⟨0, y.length, by simp⟩
      · exact ⟨clampIdx y.length _, clampIdx y.length _, rfl⟩

/-- Witness for the amended C7: at rate 4 a three-sample buffer yields the
two-sample prefix, and the result is a contiguous sub-window. -/
theorem C7_witness :
    get_noise_profile (fun _ => [1]) [(1:ℚ), 2, 3] 4 (1/2) =
      ([(1:ℚ), 2, 3] : Buf).take (truncQ ((1/2) * ((4:ℕ):ℚ))).toNat :=
  (C7_amended_noise_profile (fun _ => [1]) [(1:ℚ), 2, 3] 4).1
    (by with_unfolding_all decide) (by with_unfolding_all decide)

/-! Round-trip lemmas for the stitcher. -/

/-- The stitcher is the concatenation of the per-segment slices in both of
its source branches. -/
theorem concatenate_segments_eq (y : Buf) (sr : ℕ) (segs : List (ℚ × ℚ)) :
    concatenate_segments y sr segs =
      (segs.map fun s =>
        pySlice y (pyRound (s.1 * (sr : ℚ))) (pyRound (s.2 * (sr : ℚ)))).flatten := by
  cases segs with
  | nil => rfl
  | cons a t => simp [concatenate_segments]

/-- Python round is the identity on integers. -/
theorem pyRound_intCast (n : ℤ) : pyRound (n : ℚ) = n := by
  simp only [pyRound, Int.floor_intCast, sub_self]
  norm_num

/-- Converting a sample index to seconds and back recovers the index. -/
theorem pyRound_div_mul (i sr : ℕ) (h : 0 < sr) :
    pyRound (((i : ℚ) / (sr : ℚ)) * (sr : ℚ)) = (i : ℤ) := by
  have hsr : ((sr : ℚ)) ≠ 0 := by positivity
  rw [div_mul_cancel₀ _ hsr]
  rw [show ((i : ℚ)) = (((i : ℤ) : ℚ)) by push_cast; ring, pyRound_intCast]

/-- Claim C10: seconds conversion of the frame-scan indices round-trips
exactly (`int(round(start_s * sr))` recovers the index), so the stitched
buffer equals the in-order concatenation of the original slices at the kept
sample-index intervals, and the empty segment list yields the empty buffer. -/
theorem C10_roundtrip_concat (split : Buf → ℕ → List (ℕ × ℕ)) (y : Buf) (sr : ℕ)
    (top_db : ℕ) (hsr : 0 < sr) :
    (∀ i : ℕ, pyRound (((i : ℚ) / (sr : ℚ)) * (sr : ℚ)) = (i : ℤ))
    ∧ concatenate_segments y sr (vad_with_librosa split y sr top_db (3/10)) =
        (((split y top_db).filter fun p =>
            decide ((3:ℚ)/10 ≤ ((p.2 : ℚ) - (p.1 : ℚ)) / (sr : ℚ))).map
          fun p => pySlice y (p.1 : ℤ) (p.2 : ℤ)).flatten
    ∧ concatenate_segments y sr [] = [] := by
  refine ⟨fun i => pyRound_div_mul i sr hsr, ?_, rfl⟩
  rw [vad_eq_filter_map, concatenate_segments_eq, List.map_map]
  congr 1
  refine List.map_congr_left ?_
  intro p hp
  simp only [Function.comp_apply]
  rw [pyRound_div_mul p.1 sr hsr, pyRound_div_mul p.2 sr hsr]

/-- Witness for C10: the concrete interval list `[(0,4),(5,6)]` at rate 10
stitches to the slice of the kept interval, and index 3 round-trips. -/
theorem C10_witness :
    pyRound (((3 : ℚ) / ((10:ℕ) : ℚ)) * ((10:ℕ) : ℚ)) = (3 : ℤ)
    ∧ concatenate_segments [(1:ℚ), 2] 10
        (vad_with_librosa (fun _ _ => [(0,4),(5,6)]) [(1:ℚ), 2] 10 40 (3/10)) =
      ((([(0,4),(5,6)] : List (ℕ × ℕ)).filter fun p =>
          decide ((3:ℚ)/10 ≤ ((p.2 : ℚ) - (p.1 : ℚ)) / ((10:ℕ) : ℚ))).map
        fun p => pySlice [(1:ℚ), 2] (p.1 : ℤ) (p.2 : ℤ)).flatten := by
  constructor
  · exact (C10_roundtrip_concat (fun _ _ => [(0,4),(5,6)]) [(1:ℚ), 2] 10 40
      (by decide)).1 3
  · exact (C10_roundtrip_concat (fun _ _ => [(0,4),(5,6)]) [(1:ℚ), 2] 10 40
      (by decide)).2.1

end LinguAlive
